import Mathlib

/-!
Shallow embedding of the event-tagging and two-track system reconstruction
pipeline of `PWGUD/Tasks/upcRhoAnalysis.cxx` (struct `upcRhoAnalysis`), and
proofs of the specification claims about it.

Conventions of the embedding:
* `double` fields that only ever meet additions, multiplications and
  comparisons (vertex position, ZDC energies and times) are modelled as `ℚ`
  so the resulting predicates are decidable; fields that flow into
  transcendental functions (momenta, DCA, PID sigmas) are modelled as `ℝ`.
* the histogram registry is a pure telemetry sink: a call to
  `registry.fill(HIST("QC/tracks/hSelectionCounter"), k)` inside
  `trackPassesCuts` is modelled by counting the increments the call performs,
  which is the only observable the claims mention.
-/

/-- Configuration of `upcRhoAnalysis` (the `Configurable<...>` members that
the embedded functions read). -/
structure Config where
  specifyGapSide : Bool
  gapSide : Int
  requireTof : Bool
  collisionsPosZMaxCut : ℚ
  ZNcommonEnergyCut : ℚ
  ZNtimeCut : ℚ
  tracksTpcNSigmaPiCut : ℝ
  tracksDcaMaxCut : ℝ

/-- The constant member `double PcEtaCut = 0.9` of `upcRhoAnalysis`. -/
def PcEtaCut : ℝ := 0.9

/-- The fields of a `FullUDSgCollision` row that the embedded functions read. -/
structure Collision where
  posZ : ℚ
  gapSide : Int
  energyCommonZNA : ℚ
  timeZNA : ℚ
  energyCommonZNC : ℚ
  timeZNC : ℚ

/-- The fields of a `FullUDTracks` row that the embedded functions read. -/
structure Track where
  isPVContributor : Bool
  hasITS : Bool
  hasTPC : Bool
  hasTOF : Bool
  dcaZ : ℝ
  dcaXY : ℝ
  pt : ℝ
  px : ℝ
  py : ℝ
  pz : ℝ
  tpcNSigmaPi : ℝ
  sign : Int

/-- Embedding of `upcRhoAnalysis::collisionPassesCuts`:
reject when `|posZ| > collisionsPosZMaxCut`, reject when
`specifyGapSide && collision.gapSide() != gapSide`, otherwise accept. -/
def collisionPassesCuts (cfg : Config) (c : Collision) : Bool :=
  if |c.posZ| > cfg.collisionsPosZMaxCut then false
  else if cfg.specifyGapSide = true ∧ c.gapSide ≠ cfg.gapSide then false
  else true

/-- The four neutron-emission tags computed in `processReco`
(`OnOn`, `XnXn`, `XnOn`, `OnXn`; note `On == 0n` in the source comment). -/
structure ZdcTags where
  OnOn : Bool
  XnXn : Bool
  XnOn : Bool
  OnXn : Bool
  deriving DecidableEq

/-- Embedding of the event-tagging block of `upcRhoAnalysis::processReco`
(the four independent `if` statements setting `OnOn`, `XnXn`, `XnOn`,
`OnXn` from the ZDC energies and times, in source order). -/
def zdcClassify (cfg : Config) (c : Collision) : ZdcTags where
  OnOn := c.energyCommonZNA < cfg.ZNcommonEnergyCut ∧ c.energyCommonZNC < cfg.ZNcommonEnergyCut
  XnXn := c.energyCommonZNA > cfg.ZNcommonEnergyCut ∧ |c.timeZNA| < cfg.ZNtimeCut ∧
    c.energyCommonZNC > cfg.ZNcommonEnergyCut ∧ |c.timeZNC| < cfg.ZNtimeCut
  XnOn := c.energyCommonZNA > cfg.ZNcommonEnergyCut ∧ |c.timeZNA| < cfg.ZNtimeCut ∧
    c.energyCommonZNC < cfg.ZNcommonEnergyCut
  OnXn := c.energyCommonZNA < cfg.ZNcommonEnergyCut ∧ c.energyCommonZNC > cfg.ZNcommonEnergyCut ∧
    |c.timeZNC| < cfg.ZNtimeCut

/-- The accumulated `radius` of `upcRhoAnalysis::tracksPassPiPID`:
`radius += std::pow(track.tpcNSigmaPi(), 2)` over the given tracks. -/
def pidRadius (cutTracks : List Track) : ℝ :=
  cutTracks.foldl (fun radius track => radius + track.tpcNSigmaPi ^ 2) 0

/-- Embedding of `upcRhoAnalysis::tracksPassPiPID`:
accept when `radius < std::pow(tracksTpcNSigmaPiCut, 2)`. -/
def tracksPassPiPID (cfg : Config) (cutTracks : List Track) : Prop :=
  pidRadius cutTracks < cfg.tracksTpcNSigmaPiCut ^ 2

/-- The folded `radius` is the sum of the squared TPC pion sigmas. -/
lemma pidRadius_eq_sum (cutTracks : List Track) :
    pidRadius cutTracks = (cutTracks.map (fun t => t.tpcNSigmaPi ^ 2)).sum := by
  have h : ∀ (l : List Track) (i : ℝ),
      l.foldl (fun radius track => radius + track.tpcNSigmaPi ^ 2) i =
        i + (l.map (fun t => t.tpcNSigmaPi ^ 2)).sum := by
    intro l
    induction l with
    | nil => intro i; simp
    | cons x xs ih => intro i; simp [ih, add_assoc]
  simpa using h cutTracks 0

/-- The Run 2 dynamic DCA bound of `trackPassesCuts`:
`0.0182 + 0.0350 / std::pow(track.pt(), 1.01)`. -/
noncomputable def dcaXYBound (pt : ℝ) : ℝ :=
  0.0182 + 0.0350 / pt ^ (1.01 : ℝ)

/-- Modelled from the spec: the pseudorapidity helper `eta(px, py, pz)` used
by `trackPassesCuts` comes from `PWGUD/Core/UPCTauCentralBarrelHelperRL.h`,
which is not among the provided source files; the spec describes it as the
"pseudorapidity computed from the full 3-momentum", i.e. the standard
`0.5 * ln((p + pz) / (p - pz))` with `p` the modulus of the 3-momentum. -/
noncomputable def eta (px py pz : ℝ) : ℝ :=
  0.5 * Real.log ((Real.sqrt (px ^ 2 + py ^ 2 + pz ^ 2) + pz) /
    (Real.sqrt (px ^ 2 + py ^ 2 + pz ^ 2) - pz))

open Classical in
/-- Embedding of `upcRhoAnalysis::trackPassesCuts`. The first component is
the returned boolean; the second counts the increments the call performs on
the `QC/tracks/hSelectionCounter` histogram (one `registry.fill` after each
passed stage, at bins 1 to 5). The `if` conditions are the source's failure
conditions, in source order, short-circuiting exactly as the source does. -/
noncomputable def trackPassesCutsRun (cfg : Config) (t : Track) : Bool × ℕ :=
  if t.isPVContributor = false then (false, 0)
  else if t.hasITS = false ∨ t.hasTPC = false then (false, 1)
  else if cfg.requireTof = true ∧ t.hasTOF = false then (false, 2)
  else if |t.dcaZ| > cfg.tracksDcaMaxCut ∨ |t.dcaXY| > dcaXYBound t.pt then (false, 3)
  else if |eta t.px t.py t.pz| > PcEtaCut then (false, 4)
  else (true, 5)

/-- Stage 1 of the track cuts: primary-vertex contributor. -/
def stagePV (t : Track) : Prop := t.isPVContributor = true

/-- Stage 2 of the track cuts: both an ITS hit and a TPC hit. -/
def stageDet (t : Track) : Prop := t.hasITS = true ∧ t.hasTPC = true

/-- Stage 3 of the track cuts: a TOF signal, when required by configuration. -/
def stageTof (cfg : Config) (t : Track) : Prop :=
  cfg.requireTof = true → t.hasTOF = true

/-- Stage 4 of the track cuts: both impact-parameter offsets within bounds. -/
def stageDca (cfg : Config) (t : Track) : Prop :=
  |t.dcaZ| ≤ cfg.tracksDcaMaxCut ∧ |t.dcaXY| ≤ dcaXYBound t.pt

/-- Stage 5 of the track cuts: pseudorapidity within the symmetric bound. -/
def stageEta (t : Track) : Prop := |eta t.px t.py t.pz| ≤ PcEtaCut

open Classical in
/-- Length of the maximal prefix of true propositions: the number of stages a
track passes before the first failing one. -/
noncomputable def truePrefixCount : List Prop → ℕ
  | [] => 0
  | p :: ps => if p then truePrefixCount ps + 1 else 0

/-- The five track-cut stages of `trackPassesCuts`, in source order. -/
def stageList (cfg : Config) (t : Track) : List Prop :=
  [stagePV t, stageDet t, stageTof cfg t, stageDca cfg t, stageEta t]

/-- Embedding of `ROOT::Math::PxPyPzMVector` in Cartesian (px, py, pz, E)
coordinates. ROOT's `LorentzVector` arithmetic adds four-momenta
componentwise in these coordinates, whatever the storage representation, so
the stored mass of a sum is the invariant mass of the summed four-momentum. -/
@[ext]
structure LorentzVec where
  px : ℝ
  py : ℝ
  pz : ℝ
  e : ℝ

instance : Zero LorentzVec := ⟨⟨0, 0, 0, 0⟩⟩

instance : Add LorentzVec :=
  ⟨fun a b => ⟨a.px + b.px, a.py + b.py, a.pz + b.pz, a.e + b.e⟩⟩

instance : Sub LorentzVec :=
  ⟨fun a b => ⟨a.px - b.px, a.py - b.py, a.pz - b.pz, a.e - b.e⟩⟩

@[simp] lemma LorentzVec.add_px (a b : LorentzVec) : (a + b).px = a.px + b.px := rfl
@[simp] lemma LorentzVec.add_py (a b : LorentzVec) : (a + b).py = a.py + b.py := rfl
@[simp] lemma LorentzVec.add_pz (a b : LorentzVec) : (a + b).pz = a.pz + b.pz := rfl
@[simp] lemma LorentzVec.add_e (a b : LorentzVec) : (a + b).e = a.e + b.e := rfl
@[simp] lemma LorentzVec.zero_px : (0 : LorentzVec).px = 0 := rfl
@[simp] lemma LorentzVec.zero_py : (0 : LorentzVec).py = 0 := rfl
@[simp] lemma LorentzVec.zero_pz : (0 : LorentzVec).pz = 0 := rfl
@[simp] lemma LorentzVec.zero_e : (0 : LorentzVec).e = 0 := rfl

instance : AddCommMonoid LorentzVec where
  add_assoc a b c := by ext <;> simp [add_assoc]
  zero_add a := by ext <;> simp
  add_zero a := by ext <;> simp
  add_comm a b := by ext <;> simp [add_comm]
  nsmul := nsmulRec

/-- The `PxPyPzMVector(px, py, pz, m)` constructor: the energy coordinate is
determined by the mass hypothesis. -/
noncomputable def fromPxPyPzM (px py pz m : ℝ) : LorentzVec :=
  ⟨px, py, pz, Real.sqrt (px ^ 2 + py ^ 2 + pz ^ 2 + m ^ 2)⟩

/-- `M2()` of a `LorentzVector`: the invariant mass squared. -/
noncomputable def LorentzVec.M2 (v : LorentzVec) : ℝ :=
  v.e ^ 2 - (v.px ^ 2 + v.py ^ 2 + v.pz ^ 2)

open Classical in
/-- `M()` of a `LorentzVector`, with ROOT's sign convention for spacelike
vectors. -/
noncomputable def LorentzVec.M (v : LorentzVec) : ℝ :=
  if v.M2 < 0 then -Real.sqrt (-v.M2) else Real.sqrt v.M2

/-- `Pt()` of a `LorentzVector`: the transverse momentum. -/
noncomputable def LorentzVec.Pt (v : LorentzVec) : ℝ :=
  Real.sqrt (v.px ^ 2 + v.py ^ 2)

/-- `Rapidity()` of a `LorentzVector`. -/
noncomputable def LorentzVec.Rapidity (v : LorentzVec) : ℝ :=
  0.5 * Real.log ((v.e + v.pz) / (v.e - v.pz))

/-- `Phi()` of a `LorentzVector`: the azimuthal angle of the transverse
momentum, with principal value in `(-π, π]`. -/
noncomputable def LorentzVec.Phi (v : LorentzVec) : ℝ :=
  Complex.arg ((v.px : ℂ) + (v.py : ℂ) * Complex.I)

/-- Embedding of `upcRhoAnalysis::reconstructSystem`: sum the given
four-vectors onto a default-constructed (zero) vector. -/
noncomputable def reconstructSystem (cutTracks4Vecs : List LorentzVec) : LorentzVec :=
  cutTracks4Vecs.foldl (fun system track4Vec => system + track4Vec) 0

open Classical in
/-- Embedding of `upcRhoAnalysis::deltaPhi`: the difference of the two
azimuthal angles, folded back by one turn when it leaves `[-π, π]`. -/
noncomputable def deltaPhi (p1 p2 : LorentzVec) : ℝ :=
  if p1.Phi - p2.Phi > Real.pi then p1.Phi - p2.Phi - 2 * Real.pi
  else if p1.Phi - p2.Phi < -Real.pi then p1.Phi - p2.Phi + 2 * Real.pi
  else p1.Phi - p2.Phi

/-- Embedding of `upcRhoAnalysis::getPhiCharge` at the two-track call site
(`cutTracks[0]`, `cutTracks[1]` and their four-vectors): role `pOne` goes to
the first four-vector when the first track's sign is positive, to the second
otherwise, and the result is `deltaPhi(pOne + pTwo, pOne - pTwo)`. -/
noncomputable def getPhiCharge (t0 t1 : Track) (v0 v1 : LorentzVec) : ℝ :=
  if t0.sign > 0 then deltaPhi (v0 + v1) (v0 - v1)
  else deltaPhi (v1 + v0) (v1 - v0)

/-- Folding vector addition from any seed computes the seed plus the sum. -/
lemma foldl_add_eq (l : List LorentzVec) :
    ∀ i : LorentzVec, l.foldl (fun a b => a + b) i = i + l.sum := by
  induction l with
  | nil => intro i; simp
  | cons x xs ih => intro i; simp [ih, add_assoc]

/-- `reconstructSystem` computes the sum of its input list. -/
lemma reconstructSystem_eq_sum (l : List LorentzVec) :
    reconstructSystem l = l.sum := by
  simp [reconstructSystem, foldl_add_eq]

/-- The default values of the `Configurable` members declared in the source
(`specifyGapSide = true`, `gapSide = 2`, `requireTof = false`,
`collisionsPosZMaxCut = 10`, `ZNcommonEnergyCut = 0`, `ZNtimeCut = 2`,
`tracksTpcNSigmaPiCut = 3`, `tracksDcaMaxCut = 1`). -/
def defaultConfig : Config := ⟨true, 2, false, 10, 0, 2, 3, 1⟩

/-- A probe track with all quality flags set, zero impact parameters, unit
momentum along x, and the given TPC pion sigma and charge sign. -/
def probeTrack (nSigma : ℝ) (s : Int) : Track :=
  ⟨true, true, true, true, 0, 0, 1, 1, 0, 0, nSigma, s⟩

/-- C10: with a positive configured sigma cut, `tracksPassPiPID` accepts the
empty track collection (the accumulated radius is `0`, strictly below the
squared cut), so an event with zero surviving tracks passes the PID gate of
`processReco` rather than being rejected there. -/
theorem c10_empty_pid_pass (cfg : Config) (h : 0 < cfg.tracksTpcNSigmaPiCut) :
    tracksPassPiPID cfg [] := by
  have hz : pidRadius [] = 0 := rfl
  unfold tracksPassPiPID
  rw [hz]
  exact pow_pos h 2

/-- Witness for C10 at the source's default configuration. -/
theorem c10_empty_pid_pass_witness :
    0 < defaultConfig.tracksTpcNSigmaPiCut ∧ tracksPassPiPID defaultConfig [] :=
  ⟨by norm_num [defaultConfig], c10_empty_pid_pass defaultConfig (by norm_num [defaultConfig])⟩

/-- C1 (amended): `tracksPassPiPID` accepts iff the sum of the squared
`tpcNSigmaPi` values is strictly below the squared cut; for two tracks with
values `(a, b)`, acceptance is `a² + b² < cut²`; consequently, for a positive
cut, a single track whose `|tpcNSigmaPi|` exceeds the cut can never be part
of an accepted pair (its own square already exceeds `cut²`), while two tracks
individually below the cut can still be rejected jointly. -/
theorem c1_pid_joint_radius_amended :
    (∀ (cfg : Config) (cutTracks : List Track),
        tracksPassPiPID cfg cutTracks ↔
          (cutTracks.map (fun t => t.tpcNSigmaPi ^ 2)).sum < cfg.tracksTpcNSigmaPiCut ^ 2) ∧
    (∀ (cfg : Config) (t1 t2 : Track),
        tracksPassPiPID cfg [t1, t2] ↔
          t1.tpcNSigmaPi ^ 2 + t2.tpcNSigmaPi ^ 2 < cfg.tracksTpcNSigmaPiCut ^ 2) ∧
    (∀ (cfg : Config) (t1 t2 : Track),
        0 < cfg.tracksTpcNSigmaPiCut → cfg.tracksTpcNSigmaPiCut < |t1.tpcNSigmaPi| →
          ¬tracksPassPiPID cfg [t1, t2]) ∧
    (∃ (cfg : Config) (t1 t2 : Track),
        0 < cfg.tracksTpcNSigmaPiCut ∧ |t1.tpcNSigmaPi| < cfg.tracksTpcNSigmaPiCut ∧
          |t2.tpcNSigmaPi| < cfg.tracksTpcNSigmaPiCut ∧ ¬tracksPassPiPID cfg [t1, t2]) := by
  have hiff : ∀ (cfg : Config) (cutTracks : List Track),
      tracksPassPiPID cfg cutTracks ↔
        (cutTracks.map (fun t => t.tpcNSigmaPi ^ 2)).sum < cfg.tracksTpcNSigmaPiCut ^ 2 := by
    intro cfg cutTracks
    rw [tracksPassPiPID, pidRadius_eq_sum]
  have hpair : ∀ (cfg : Config) (t1 t2 : Track),
      tracksPassPiPID cfg [t1, t2] ↔
        t1.tpcNSigmaPi ^ 2 + t2.tpcNSigmaPi ^ 2 < cfg.tracksTpcNSigmaPiCut ^ 2 := by
    intro cfg t1 t2
    rw [hiff]
    simp
  refine ⟨hiff, hpair, ?_, ?_⟩
  · intro cfg t1 t2 hpos hgt hpass
    rw [hpair] at hpass
    have hsq : cfg.tracksTpcNSigmaPiCut ^ 2 < |t1.tpcNSigmaPi| ^ 2 :=
      pow_lt_pow_left₀ hgt hpos.le (by norm_num)
    rw [sq_abs] at hsq
    have := sq_nonneg t2.tpcNSigmaPi
    linarith
  · refine ⟨defaultConfig, probeTrack (5 / 2) 1, probeTrack (5 / 2) (-1), ?_, ?_, ?_, ?_⟩
    · norm_num [defaultConfig]
    · norm_num [defaultConfig, probeTrack, abs_lt]
    · norm_num [defaultConfig, probeTrack, abs_lt]
    · rw [hpair]
      norm_num [defaultConfig, probeTrack]

/-- Witness for C1 (amended): a pair with sigma values `(5/2, 5/2)` under the
default cut `3` has both values below the cut yet is rejected, since
`25/4 + 25/4 = 50/4 > 9`. -/
theorem c1_pid_joint_radius_amended_witness :
    ¬tracksPassPiPID defaultConfig [probeTrack (5 / 2) 1, probeTrack (5 / 2) (-1)] := by
  have h := (c1_pid_joint_radius_amended.2.1 defaultConfig
    (probeTrack (5 / 2) 1) (probeTrack (5 / 2) (-1)))
  rw [h]
  norm_num [defaultConfig, probeTrack]

/-- Counterexample to C1 as stated: it is impossible (for a positive cut, as
any sigma cut is) that a track whose `|tpcNSigmaPi|` exceeds the cut belongs
to an accepted pair, because its own squared sigma already reaches the
squared cut; the claim's compensation scenario cannot occur. -/
theorem c1_counterexample :
    ¬∃ (cfg : Config) (t1 t2 : Track),
        0 < cfg.tracksTpcNSigmaPiCut ∧ cfg.tracksTpcNSigmaPiCut < |t1.tpcNSigmaPi| ∧
          tracksPassPiPID cfg [t1, t2] := by
  rintro ⟨cfg, t1, t2, hpos, hgt, hpass⟩
  rw [tracksPassPiPID, pidRadius_eq_sum] at hpass
  simp at hpass
  have hsq : cfg.tracksTpcNSigmaPiCut ^ 2 < |t1.tpcNSigmaPi| ^ 2 :=
    pow_lt_pow_left₀ hgt hpos.le (by norm_num)
  rw [sq_abs] at hsq
  have := sq_nonneg t2.tpcNSigmaPi
  linarith

/-- C2: the ZDC event classifier sets each of the four neutron-emission tags
exactly under the stated energy/time conditions, and the event
`(energyA, timeA, energyC, timeC) = (5, 5, -1, 0)` with `energyThresh = 0`
and `timeWindow = 2` (A-side energy above threshold but time outside the
window) receives none of the four tags. -/
theorem c2_zdc_tag_conditions :
    (∀ (cfg : Config) (c : Collision),
        ((zdcClassify cfg c).OnOn = true ↔
          c.energyCommonZNA < cfg.ZNcommonEnergyCut ∧
            c.energyCommonZNC < cfg.ZNcommonEnergyCut) ∧
        ((zdcClassify cfg c).XnXn = true ↔
          c.energyCommonZNA > cfg.ZNcommonEnergyCut ∧ |c.timeZNA| < cfg.ZNtimeCut ∧
            c.energyCommonZNC > cfg.ZNcommonEnergyCut ∧ |c.timeZNC| < cfg.ZNtimeCut) ∧
        ((zdcClassify cfg c).XnOn = true ↔
          c.energyCommonZNA > cfg.ZNcommonEnergyCut ∧ |c.timeZNA| < cfg.ZNtimeCut ∧
            c.energyCommonZNC < cfg.ZNcommonEnergyCut) ∧
        ((zdcClassify cfg c).OnXn = true ↔
          c.energyCommonZNA < cfg.ZNcommonEnergyCut ∧
            c.energyCommonZNC > cfg.ZNcommonEnergyCut ∧ |c.timeZNC| < cfg.ZNtimeCut)) ∧
    zdcClassify defaultConfig ⟨0, 2, 5, 5, -1, 0⟩ = ⟨false, false, false, false⟩ := by
  constructor
  · intro cfg c
    refine ⟨?_, ?_, ?_, ?_⟩ <;> simp [zdcClassify]
  · decide

/-- C5: for every input and every choice of thresholds the four ZDC tags are
pairwise mutually exclusive (the energy-threshold requirements are disjoint),
although for some inputs none of the four is set. -/
theorem c5_zdc_tags_mutually_exclusive :
    (∀ (cfg : Config) (c : Collision),
        ¬((zdcClassify cfg c).OnOn = true ∧ (zdcClassify cfg c).XnXn = true) ∧
        ¬((zdcClassify cfg c).OnOn = true ∧ (zdcClassify cfg c).XnOn = true) ∧
        ¬((zdcClassify cfg c).OnOn = true ∧ (zdcClassify cfg c).OnXn = true) ∧
        ¬((zdcClassify cfg c).XnXn = true ∧ (zdcClassify cfg c).XnOn = true) ∧
        ¬((zdcClassify cfg c).XnXn = true ∧ (zdcClassify cfg c).OnXn = true) ∧
        ¬((zdcClassify cfg c).XnOn = true ∧ (zdcClassify cfg c).OnXn = true)) ∧
    (∃ (cfg : Config) (c : Collision),
        (zdcClassify cfg c).OnOn = false ∧ (zdcClassify cfg c).XnXn = false ∧
          (zdcClassify cfg c).XnOn = false ∧ (zdcClassify cfg c).OnXn = false) := by
  constructor
  · intro cfg c
    simp only [zdcClassify, decide_eq_true_eq]
    refine ⟨?_, ?_, ?_, ?_, ?_, ?_⟩
    · rintro ⟨⟨h1, -⟩, h2, -⟩; exact absurd h1 (not_lt_of_gt h2)
    · rintro ⟨⟨h1, -⟩, h2, -⟩; exact absurd h1 (not_lt_of_gt h2)
    · rintro ⟨⟨-, h1⟩, -, h2, -⟩; exact absurd h1 (not_lt_of_gt h2)
    · rintro ⟨⟨-, -, h1, -⟩, -, -, h2⟩; exact absurd h2 (not_lt_of_gt h1)
    · rintro ⟨⟨h1, -⟩, h2, -⟩; exact absurd h2 (not_lt_of_gt h1)
    · rintro ⟨⟨-, -, h1⟩, -, h2, -⟩; exact absurd h1 (not_lt_of_gt h2)
  · exact ⟨defaultConfig, ⟨0, 2, 5, 5, -1, 0⟩, by decide⟩

/-- C8: `collisionPassesCuts` accepts exactly the collisions whose `|posZ|`
does not exceed the configured bound and whose gap side matches the expected
one whenever gap-side tagging is enabled; violating either condition alone
yields `false`. The embedding is a pure function, so the call has no side
effects. -/
theorem c8_collision_cuts_iff (cfg : Config) (c : Collision) :
    (collisionPassesCuts cfg c = true ↔
      |c.posZ| ≤ cfg.collisionsPosZMaxCut ∧
        (cfg.specifyGapSide = false ∨ c.gapSide = cfg.gapSide)) ∧
    (|c.posZ| > cfg.collisionsPosZMaxCut → collisionPassesCuts cfg c = false) ∧
    (cfg.specifyGapSide = true → c.gapSide ≠ cfg.gapSide →
      collisionPassesCuts cfg c = false) := by
  refine ⟨?_, ?_, ?_⟩
  · unfold collisionPassesCuts
    split_ifs with h1 h2
    · constructor
      · intro h; cases h
      · rintro ⟨hle, -⟩
        exact absurd h1 (not_lt.mpr hle)
    · constructor
      · intro h; cases h
      · rintro ⟨-, hf | heq⟩
        · simp [h2.1] at hf
        · exact h2.2 heq
    · constructor
      · intro _
        refine ⟨not_lt.mp h1, ?_⟩
        by_cases hs : cfg.specifyGapSide = true
        · by_cases hg : c.gapSide = cfg.gapSide
          · exact Or.inr hg
          · exact absurd ⟨hs, hg⟩ h2
        · refine Or.inl ?_
          revert hs
          cases cfg.specifyGapSide <;> simp
      · intro _
        rfl
  · intro h1
    unfold collisionPassesCuts
    rw [if_pos h1]
  · intro hs hg
    unfold collisionPassesCuts
    by_cases h1 : |c.posZ| > cfg.collisionsPosZMaxCut
    · rw [if_pos h1]
    · rw [if_neg h1, if_pos ⟨hs, hg⟩]

/-- Witness for C8: the default configuration rejects a collision at
`posZ = 12` (the bound is `10`), and rejects a gap-side-1 collision (the
expected side is `2`); it accepts a central collision on the expected side. -/
theorem c8_collision_cuts_iff_witness :
    collisionPassesCuts defaultConfig ⟨12, 2, 0, 0, 0, 0⟩ = false ∧
    collisionPassesCuts defaultConfig ⟨0, 1, 0, 0, 0, 0⟩ = false ∧
    collisionPassesCuts defaultConfig ⟨0, 2, 0, 0, 0, 0⟩ = true :=
  ⟨(c8_collision_cuts_iff defaultConfig ⟨12, 2, 0, 0, 0, 0⟩).2.1 (by norm_num [defaultConfig]),
   (c8_collision_cuts_iff defaultConfig ⟨0, 1, 0, 0, 0, 0⟩).2.2 (by decide) (by decide),
   (c8_collision_cuts_iff defaultConfig ⟨0, 2, 0, 0, 0, 0⟩).1.mpr (by decide)⟩

/-- Passing stage 1 is the negation of the source's first failure condition. -/
lemma stagePV_not_cond (t : Track) (h : stagePV t) : ¬(t.isPVContributor = false) := by
  simpa [stagePV] using h

/-- Failing stage 1 is the source's first failure condition. -/
lemma not_stagePV_cond (t : Track) (h : ¬stagePV t) : t.isPVContributor = false := by
  simpa [stagePV] using h

/-- Passing stage 2 is the negation of the source's second failure condition. -/
lemma stageDet_not_cond (t : Track) (h : stageDet t) :
    ¬(t.hasITS = false ∨ t.hasTPC = false) := by
  simpa [stageDet, not_or] using h

/-- Failing stage 2 is the source's second failure condition. -/
lemma not_stageDet_cond (t : Track) (h : ¬stageDet t) :
    t.hasITS = false ∨ t.hasTPC = false := by
  rw [stageDet, not_and_or] at h
  simpa using h

/-- Passing stage 3 is the negation of the source's third failure condition. -/
lemma stageTof_not_cond (cfg : Config) (t : Track) (h : stageTof cfg t) :
    ¬(cfg.requireTof = true ∧ t.hasTOF = false) := by
  rintro ⟨ha, hb⟩
  rw [h ha] at hb
  cases hb

/-- Failing stage 3 is the source's third failure condition. -/
lemma not_stageTof_cond (cfg : Config) (t : Track) (h : ¬stageTof cfg t) :
    cfg.requireTof = true ∧ t.hasTOF = false := by
  rw [stageTof] at h
  push_neg at h
  simpa using h

/-- Passing stage 4 is the negation of the source's fourth failure condition. -/
lemma stageDca_not_cond (cfg : Config) (t : Track) (h : stageDca cfg t) :
    ¬(|t.dcaZ| > cfg.tracksDcaMaxCut ∨ |t.dcaXY| > dcaXYBound t.pt) := by
  simpa [not_or, not_lt] using h

/-- Failing stage 4 is the source's fourth failure condition. -/
lemma not_stageDca_cond (cfg : Config) (t : Track) (h : ¬stageDca cfg t) :
    |t.dcaZ| > cfg.tracksDcaMaxCut ∨ |t.dcaXY| > dcaXYBound t.pt := by
  rw [stageDca] at h
  push_neg at h
  by_cases hz : |t.dcaZ| ≤ cfg.tracksDcaMaxCut
  · exact Or.inr (h hz)
  · exact Or.inl (not_le.mp hz)

/-- Passing stage 5 is the negation of the source's fifth failure condition. -/
lemma stageEta_not_cond (t : Track) (h : stageEta t) : ¬(|eta t.px t.py t.pz| > PcEtaCut) := by
  simpa [not_lt] using h

/-- Failing stage 5 is the source's fifth failure condition. -/
lemma not_stageEta_cond (t : Track) (h : ¬stageEta t) : |eta t.px t.py t.pz| > PcEtaCut := by
  simpa [stageEta, not_le] using h

/-- C3: `trackPassesCuts` evaluates its five stages in the fixed source
order, short-circuiting at the first failing stage: the call returns `true`
exactly when all five stages pass, and the number of selection-counter
increments it performs equals the length of the maximal passing prefix of
the stage list (all five stages when the track is accepted). -/
theorem c3_track_stage_count (cfg : Config) (t : Track) :
    ((trackPassesCutsRun cfg t).1 = true ↔
      stagePV t ∧ stageDet t ∧ stageTof cfg t ∧ stageDca cfg t ∧ stageEta t) ∧
    (trackPassesCutsRun cfg t).2 = truePrefixCount (stageList cfg t) := by
  unfold trackPassesCutsRun
  simp only [stageList, truePrefixCount]
  by_cases h1 : stagePV t
  · rw [if_neg (stagePV_not_cond t h1), if_pos h1]
    by_cases h2 : stageDet t
    · rw [if_neg (stageDet_not_cond t h2), if_pos h2]
      by_cases h3 : stageTof cfg t
      · rw [if_neg (stageTof_not_cond cfg t h3), if_pos h3]
        by_cases h4 : stageDca cfg t
        · rw [if_neg (stageDca_not_cond cfg t h4), if_pos h4]
          by_cases h5 : stageEta t
          · rw [if_neg (stageEta_not_cond t h5), if_pos h5]
            simp [h1, h2, h3, h4, h5]
          · rw [if_pos (not_stageEta_cond t h5), if_neg h5]
            simp [h5]
        · rw [if_pos (not_stageDca_cond cfg t h4), if_neg h4]
          simp [h4]
      · rw [if_pos (not_stageTof_cond cfg t h3), if_neg h3]
        simp [h3]
    · rw [if_pos ((not_stageDet_cond t h2)), if_neg h2]
      simp [h2]
  · rw [if_pos (not_stagePV_cond t h1), if_neg h1]
    simp [h1]

/-- Witness for C3 at a concrete configuration and track: the probe track
passes all five stages under the default configuration. -/
theorem c3_track_stage_count_witness :
    ((trackPassesCutsRun defaultConfig (probeTrack 0 1)).1 = true ↔
      stagePV (probeTrack 0 1) ∧ stageDet (probeTrack 0 1) ∧
        stageTof defaultConfig (probeTrack 0 1) ∧ stageDca defaultConfig (probeTrack 0 1) ∧
        stageEta (probeTrack 0 1)) ∧
    (trackPassesCutsRun defaultConfig (probeTrack 0 1)).2 =
      truePrefixCount (stageList defaultConfig (probeTrack 0 1)) :=
  c3_track_stage_count defaultConfig (probeTrack 0 1)

/-- C9: the transverse impact-parameter bound applied at the DCA stage of
`trackPassesCuts` is exactly `0.0182 + 0.0350 / pT ^ 1.01`, a strictly
decreasing function of positive transverse momentum, and a track that has
passed the first three stages fails at the DCA stage (the call performs
exactly three counter increments) iff `|dcaZ|` exceeds the configured
longitudinal bound or `|dcaXY|` exceeds this momentum-dependent bound. -/
theorem c9_dca_dynamic_bound (p q : ℝ) (hp : 0 < p) (hpq : p < q)
    (cfg : Config) (t : Track)
    (h1 : stagePV t) (h2 : stageDet t) (h3 : stageTof cfg t) :
    dcaXYBound t.pt = 0.0182 + 0.0350 / t.pt ^ (1.01 : ℝ) ∧
    dcaXYBound q < dcaXYBound p ∧
    ((trackPassesCutsRun cfg t).2 = 3 ↔
      |t.dcaZ| > cfg.tracksDcaMaxCut ∨ |t.dcaXY| > dcaXYBound t.pt) := by
  refine ⟨rfl, ?_, ?_⟩
  · have hz : p ^ (1.01 : ℝ) < q ^ (1.01 : ℝ) :=
      Real.rpow_lt_rpow hp.le hpq (by norm_num)
    have hppos : (0 : ℝ) < p ^ (1.01 : ℝ) := Real.rpow_pos_of_pos hp _
    have hdiv : (0.0350 : ℝ) / q ^ (1.01 : ℝ) < 0.0350 / p ^ (1.01 : ℝ) :=
      div_lt_div_of_pos_left (by norm_num) hppos hz
    unfold dcaXYBound
    linarith
  · unfold trackPassesCutsRun
    rw [if_neg (stagePV_not_cond t h1), if_neg (stageDet_not_cond t h2),
      if_neg (stageTof_not_cond cfg t h3)]
    by_cases h4 : |t.dcaZ| > cfg.tracksDcaMaxCut ∨ |t.dcaXY| > dcaXYBound t.pt
    · rw [if_pos h4]
      simp [h4]
    · rw [if_neg h4]
      by_cases h5 : |eta t.px t.py t.pz| > PcEtaCut
      · rw [if_pos h5]
        simp [h4]
      · rw [if_neg h5]
        simp [h4]

/-- Witness for C9: the bound at `pT = 2` is below the bound at `pT = 1`, and
the DCA-stage characterisation holds for the probe track under the default
configuration. -/
theorem c9_dca_dynamic_bound_witness :
    dcaXYBound 2 < dcaXYBound 1 ∧
    ((trackPassesCutsRun defaultConfig (probeTrack 0 1)).2 = 3 ↔
      |(probeTrack 0 1).dcaZ| > defaultConfig.tracksDcaMaxCut ∨
        |(probeTrack 0 1).dcaXY| > dcaXYBound (probeTrack 0 1).pt) := by
  have h := c9_dca_dynamic_bound 1 2 (by norm_num) (by norm_num) defaultConfig (probeTrack 0 1)
    (by simp [stagePV, probeTrack]) (by simp [stageDet, probeTrack])
    (by simp [stageTof, defaultConfig])
  exact ⟨h.2.1, h.2.2⟩

/-- Counterexample to C4 as stated: for four-vectors with azimuthal angles
`0` (momentum along +x) and `π` (momentum along -x), the raw difference is
`-π`, neither wrap branch fires, and `deltaPhi` returns `-π`, which lies
outside the claimed half-open interval `(-π, π]`. -/
theorem c4_counterexample :
    deltaPhi (fromPxPyPzM 1 0 0 0) (fromPxPyPzM (-1) 0 0 0) ∉
      Set.Ioc (-Real.pi) Real.pi := by
  have hphi1 : (fromPxPyPzM 1 0 0 0).Phi = 0 := by
    simp [LorentzVec.Phi, fromPxPyPzM]
  have hphi2 : (fromPxPyPzM (-1) 0 0 0).Phi = Real.pi := by
    simp [LorentzVec.Phi, fromPxPyPzM, Complex.arg_neg_one]
  have hA : ¬(0 - Real.pi > Real.pi) := by linarith [Real.pi_pos]
  have hB : ¬(0 - Real.pi < -Real.pi) := by linarith
  have hval : deltaPhi (fromPxPyPzM 1 0 0 0) (fromPxPyPzM (-1) 0 0 0) = -Real.pi := by
    unfold deltaPhi
    rw [hphi1, hphi2, if_neg hA, if_neg hB]
    ring
  rw [hval]
  simp [Set.mem_Ioc]

/-- C4 (amended): for every pair of four-vectors, `deltaPhi` returns a signed
angle in the closed interval `[-π, π]` (the endpoint `-π` is attained exactly
when the raw difference is `-π`), obtained from the raw difference of the two
azimuthal angles by adding or subtracting `2π` at most once. -/
theorem c4_deltaPhi_closed_range (p1 p2 : LorentzVec) :
    deltaPhi p1 p2 ∈ Set.Icc (-Real.pi) Real.pi ∧
    (deltaPhi p1 p2 = p1.Phi - p2.Phi ∨
     deltaPhi p1 p2 = p1.Phi - p2.Phi - 2 * Real.pi ∨
     deltaPhi p1 p2 = p1.Phi - p2.Phi + 2 * Real.pi) := by
  have h1 := Complex.arg_mem_Ioc ((p1.px : ℂ) + (p1.py : ℂ) * Complex.I)
  have h2 := Complex.arg_mem_Ioc ((p2.px : ℂ) + (p2.py : ℂ) * Complex.I)
  rw [Set.mem_Ioc] at h1 h2
  unfold deltaPhi LorentzVec.Phi
  split_ifs with hA hB
  · refine ⟨?_, Or.inr (Or.inl rfl)⟩
    rw [Set.mem_Icc]
    constructor <;> linarith [h1.1, h1.2, h2.1, h2.2, Real.pi_pos]
  · refine ⟨?_, Or.inr (Or.inr rfl)⟩
    rw [Set.mem_Icc]
    push_neg at hA
    constructor <;> linarith [h1.1, h1.2, h2.1, h2.2, Real.pi_pos]
  · refine ⟨?_, Or.inl rfl⟩
    rw [Set.mem_Icc]
    push_neg at hA hB
    constructor <;> linarith [h1.1, h1.2, h2.1, h2.2, Real.pi_pos]

/-- C6: for oppositely-charged tracks, `getPhiCharge` assigns the role
`pOne` to the four-vector of the positively-charged track and returns
`deltaPhi(pOne + pTwo, pOne - pTwo)`; being a pure function of its inputs,
two calls with identical inputs return identical results. -/
theorem c6_phiCharge_positive_role (t0 t1 : Track) (v0 v1 : LorentzVec)
    (hopp : t0.sign = -t1.sign) (hnz : t0.sign ≠ 0) :
    (0 < t0.sign → getPhiCharge t0 t1 v0 v1 = deltaPhi (v0 + v1) (v0 - v1)) ∧
    (0 < t1.sign → getPhiCharge t0 t1 v0 v1 = deltaPhi (v1 + v0) (v1 - v0)) ∧
    getPhiCharge t0 t1 v0 v1 = getPhiCharge t0 t1 v0 v1 := by
  refine ⟨?_, ?_, rfl⟩
  · intro h
    unfold getPhiCharge
    rw [if_pos h]
  · intro h
    have hneg : ¬(t0.sign > 0) := by
      rw [hopp]
      omega
    unfold getPhiCharge
    rw [if_neg hneg]

/-- Witness for C6: a (+1, -1) pair of probe tracks with back-to-back unit
momenta; the positive first track takes the `pOne` role. -/
theorem c6_phiCharge_positive_role_witness :
    getPhiCharge (probeTrack 0 1) (probeTrack 0 (-1)) (fromPxPyPzM 1 0 0 1)
        (fromPxPyPzM (-1) 0 0 1) =
      deltaPhi (fromPxPyPzM 1 0 0 1 + fromPxPyPzM (-1) 0 0 1)
        (fromPxPyPzM 1 0 0 1 - fromPxPyPzM (-1) 0 0 1) :=
  (c6_phiCharge_positive_role (probeTrack 0 1) (probeTrack 0 (-1))
    (fromPxPyPzM 1 0 0 1) (fromPxPyPzM (-1) 0 0 1) (by decide) (by decide)).1 (by decide)

/-- C7: `reconstructSystem` is invariant under permutation of its input
four-vectors: the reconstructed system's invariant mass, transverse momentum
and rapidity are identical for any ordering. -/
theorem c7_system_perm_invariant (l1 l2 : List LorentzVec) (h : List.Perm l1 l2) :
    (reconstructSystem l1).M = (reconstructSystem l2).M ∧
    (reconstructSystem l1).Pt = (reconstructSystem l2).Pt ∧
    (reconstructSystem l1).Rapidity = (reconstructSystem l2).Rapidity := by
  have hs : reconstructSystem l1 = reconstructSystem l2 := by
    rw [reconstructSystem_eq_sum, reconstructSystem_eq_sum]
    exact List.Perm.sum_eq h
  rw [hs]
  exact ⟨rfl, rfl, rfl⟩

/-- Witness for C7: the two orderings of a concrete two-vector list give the
same system mass, transverse momentum and rapidity. -/
theorem c7_system_perm_invariant_witness :
    (reconstructSystem [fromPxPyPzM 1 0 0 1, fromPxPyPzM 0 1 0 1]).M =
      (reconstructSystem [fromPxPyPzM 0 1 0 1, fromPxPyPzM 1 0 0 1]).M ∧
    (reconstructSystem [fromPxPyPzM 1 0 0 1, fromPxPyPzM 0 1 0 1]).Pt =
      (reconstructSystem [fromPxPyPzM 0 1 0 1, fromPxPyPzM 1 0 0 1]).Pt ∧
    (reconstructSystem [fromPxPyPzM 1 0 0 1, fromPxPyPzM 0 1 0 1]).Rapidity =
      (reconstructSystem [fromPxPyPzM 0 1 0 1, fromPxPyPzM 1 0 0 1]).Rapidity :=
  c7_system_perm_invariant _ _
    (List.Perm.swap (fromPxPyPzM 0 1 0 1) (fromPxPyPzM 1 0 0 1) [])

/-- Witness for C2 at the concrete event of the claim: instantiating the tag
characterisation at `(5, 5, -1, 0)` with thresholds `(0, 2)`. -/
theorem c2_zdc_tag_conditions_witness :
    (zdcClassify defaultConfig ⟨0, 2, 5, 5, -1, 0⟩).XnOn = true ↔
      (5 : ℚ) > defaultConfig.ZNcommonEnergyCut ∧ |(5 : ℚ)| < defaultConfig.ZNtimeCut ∧
        (-1 : ℚ) < defaultConfig.ZNcommonEnergyCut :=
  (c2_zdc_tag_conditions.1 defaultConfig ⟨0, 2, 5, 5, -1, 0⟩).2.2.1

/-- Witness for C5 at a concrete event: the 0n0n and XnXn tags cannot both be
set for the all-below-threshold event `(-1, 0, -1, 0)`. -/
theorem c5_zdc_tags_mutually_exclusive_witness :
    ¬((zdcClassify defaultConfig ⟨0, 2, -1, 0, -1, 0⟩).OnOn = true ∧
      (zdcClassify defaultConfig ⟨0, 2, -1, 0, -1, 0⟩).XnXn = true) :=
  (c5_zdc_tags_mutually_exclusive.1 defaultConfig ⟨0, 2, -1, 0, -1, 0⟩).1

/-- Witness for C4 (amended) at the concrete back-to-back pair: the returned
angle lies in `[-π, π]` and is a single-wrap adjustment of the raw
difference. -/
theorem c4_deltaPhi_closed_range_witness :
    deltaPhi (fromPxPyPzM 1 0 0 0) (fromPxPyPzM 0 1 0 0) ∈
      Set.Icc (-Real.pi) Real.pi ∧
    (deltaPhi (fromPxPyPzM 1 0 0 0) (fromPxPyPzM 0 1 0 0) =
        (fromPxPyPzM 1 0 0 0).Phi - (fromPxPyPzM 0 1 0 0).Phi ∨
     deltaPhi (fromPxPyPzM 1 0 0 0) (fromPxPyPzM 0 1 0 0) =
        (fromPxPyPzM 1 0 0 0).Phi - (fromPxPyPzM 0 1 0 0).Phi - 2 * Real.pi ∨
     deltaPhi (fromPxPyPzM 1 0 0 0) (fromPxPyPzM 0 1 0 0) =
        (fromPxPyPzM 1 0 0 0).Phi - (fromPxPyPzM 0 1 0 0).Phi + 2 * Real.pi) :=
  c4_deltaPhi_closed_range (fromPxPyPzM 1 0 0 0) (fromPxPyPzM 0 1 0 0)
